import Mathlib

/-!
Verification development for the interactive terminal front-end of a fuzzy
finder (`terminal.go`).  The Go code is shallowly embedded: pure helper
functions become Lean functions on `List Char` / `Int` / `Nat`, the action
dispatcher of the input loop becomes a step function on an explicit state
record, and the request mailbox traffic of one dispatch becomes the list of
request kinds posted by that dispatch.  Machine integers (`int`, `int32`)
are embedded as `Int`; accumulated display widths, which are sums of
non-negative rune widths, are kept as `Nat` and coerced where the Go code
compares them with possibly negative quantities.

The external `go-runewidth` table is abstracted as a parameter
`rw : Char → Nat` giving the terminal column width of each non-tab code
point (the Go code memoizes this table in `_runeWidths`; memoization of a
pure function is dropped).  Tab handling (`8 - prefix % 8`) is embedded
exactly as in `runeWidth`.
-/

namespace Fzf

/-- `util.Constrain` / `util.Constrain32`: clamp `val` into `[lo, hi]`,
checking the lower bound first. -/
def goConstrain (val lo hi : Int) : Int :=
  if val < lo then lo else if val > hi then hi else val

/-- `util.Max` / `util.Max32`. -/
def goMax (a b : Int) : Int := if a > b then a else b

/-- `util.Min32`. -/
def goMin (a b : Int) : Int := if a < b then a else b

/-- `runeWidth` from terminal.go: a tab advances to the next multiple-of-8
column, every other code point has the (memoized) width `rw r`. -/
def runeWidth (rw : Char → Nat) (r : Char) (prefixWidth : Nat) : Nat :=
  if r = '\t' then 8 - prefixWidth % 8 else rw r

/-- Accumulator form of `displayWidth`. -/
def displayWidthAux (rw : Char → Nat) : List Char → Nat → Nat
  | [], l => l
  | r :: rs, l => displayWidthAux rw rs (l + runeWidth rw r l)

/-- `displayWidth` from terminal.go. -/
def displayWidth (rw : Char → Nat) (runes : List Char) : Nat :=
  displayWidthAux rw runes 0

/-- Sum of raw rune widths; equals `displayWidth` on tab-free text. -/
def sumW (rw : Char → Nat) (runes : List Char) : Nat :=
  (runes.map rw).sum

/-- Core loop of `trimRight`: returns the number of runes kept.  Walking the
original list with index `idx` and accumulated width `l`, the Go loop
returns `runes[:idx]` at the first index `idx ≥ 1` whose cumulative width
exceeds `width`, and the whole slice otherwise. -/
def trimRightK (rw : Char → Nat) (width : Int) : List Char → Nat → Nat → Nat
  | [], idx, _ => idx
  | r :: rs, idx, l =>
    if 0 < idx ∧ ((l + runeWidth rw r l : Nat) : Int) > width then idx
    else trimRightK rw width rs (idx + 1) (l + runeWidth rw r l)

/-- `trimRight` from terminal.go: trim from the right to `width` columns
(the first rune is always kept); also returns the number of trimmed runes. -/
def trimRight (rw : Char → Nat) (runes : List Char) (width : Int) :
    List Char × Nat :=
  let k := trimRightK rw width runes 0 0
  (runes.take k, runes.length - k)

/-- Accumulator form of `displayWidthWithLimit` (early exit once the
running width exceeds `limit`). -/
def dwlAux (rw : Char → Nat) (prefixWidth : Nat) (limit : Int) :
    List Char → Nat → Nat
  | [], l => l
  | r :: rs, l =>
    if ((l + runeWidth rw r (l + prefixWidth) : Nat) : Int) > limit then
      l + runeWidth rw r (l + prefixWidth)
    else dwlAux rw prefixWidth limit rs (l + runeWidth rw r (l + prefixWidth))

/-- `displayWidthWithLimit` from terminal.go. -/
def displayWidthWithLimit (rw : Char → Nat) (runes : List Char)
    (prefixWidth : Nat) (limit : Int) : Nat :=
  dwlAux rw prefixWidth limit runes 0

/-- Loop of `trimLeft`: drop leading runes while `currentWidth` exceeds
`width`, recomputing the width with a 2-column prefix (the `..` marker). -/
def trimLeftAux (rw : Char → Nat) (width : Int) :
    List Char → Int → Nat → List Char × Int
  | [], trimmed, _ => ([], trimmed)
  | r :: rs, trimmed, currentWidth =>
    if (currentWidth : Int) > width then
      trimLeftAux rw width rs (trimmed + 1) (displayWidthWithLimit rw rs 2 width)
    else (r :: rs, trimmed)

/-- `trimLeft` from terminal.go: trim from the left until the text fits
`width` columns; also returns the number of trimmed runes. -/
def trimLeft (rw : Char → Nat) (runes : List Char) (width : Int) :
    List Char × Int :=
  trimLeftAux rw width runes 0 (displayWidth rw runes)

/-- Truncation phase of `printHighlighted` (terminal.go, overflow
handling).  `maxWidth` is `C.MaxX() - 3`; `maxe` is the furthest match-end
over `item.offsets`; `offsets` is the highlight-offset list produced by
`item.colorOffsets` (an `(start, end)` pair per highlight span, in
code-point coordinates).  Returns the text that will be painted and the
adjusted offsets. -/
def truncateItem (rw : Char → Nat) (hscroll : Bool) (maxWidth : Int)
    (text : List Char) (maxe : Int) (offsets : List (Int × Int)) :
    List Char × List (Int × Int) :=
  let fullWidth := displayWidth rw text
  if (fullWidth : Int) > maxWidth then
    if hscroll then
      let matchEndWidth := displayWidth rw (text.take maxe.toNat)
      if (matchEndWidth : Int) ≤ maxWidth - 2 then
        ((trimRight rw text (maxWidth - 2)).1 ++ ['.', '.'], offsets)
      else
        let text1 :=
          if (matchEndWidth : Int) < (fullWidth : Int) - 2 then
            text.take maxe.toNat ++ ['.', '.']
          else text
        let tl := trimLeft rw text1 (maxWidth - 2)
        let offsets1 := offsets.map (fun p =>
          let b := goMax (p.1 + 2 - tl.2) 2
          (b, goMax b (p.2 + 2 - tl.2)))
        ('.' :: '.' :: tl.1, offsets1)
    else
      ((trimRight rw text (maxWidth - 2)).1 ++ ['.', '.'],
       offsets.map (fun p => (goMin p.1 (maxWidth - 2), goMin p.2 maxWidth)))
  else (text, offsets)

/-- Painting loop of `printHighlighted`: each offset is clamped with
`util.Constrain32` into `[index, maxOffset]` before its span is printed;
`index` then advances to the clamped end, and the loop stops once `index`
reaches `maxOffset`.  Returns the clamped `(start, end)` pairs actually
painted. -/
def paintOffsetsAux (maxOffset : Int) : List (Int × Int) → Int → List (Int × Int)
  | [], _ => []
  | p :: ps, index =>
    let b := goConstrain p.1 index maxOffset
    let e := goConstrain p.2 index maxOffset
    (b, e) :: (if e ≥ maxOffset then [] else paintOffsetsAux maxOffset ps e)

/-- Clamped highlight spans painted for a truncated text of length
`textLen` (`maxOffset = int32(len(text))` in the Go code). -/
def paintOffsets (textLen : Nat) (offsets : List (Int × Int)) :
    List (Int × Int) :=
  paintOffsetsAux (textLen : Int) offsets 0

/-- Width of the first code point of `text` when drawn at column 0;
`0` for empty text. -/
def firstRuneWidth (rw : Char → Nat) (text : List Char) : Nat :=
  match text with
  | [] => 0
  | r :: _ => runeWidth rw r 0

/-- Width table used by concrete witnesses: every code point one column. -/
def unitWidth : Char → Nat := fun _ => 1

/-! Lemmas about the width and truncation functions. -/

theorem goConstrain_le_right (val lo hi : Int) (h : lo ≤ hi) :
    goConstrain val lo hi ≤ hi := by
  unfold goConstrain; split_ifs <;> omega

theorem goConstrain_ge_left (val lo hi : Int) (h : lo ≤ hi) :
    lo ≤ goConstrain val lo hi := by
  unfold goConstrain; split_ifs <;> omega

theorem goConstrain_mono (v w lo hi : Int) (h : v ≤ w) (hlh : lo ≤ hi) :
    goConstrain v lo hi ≤ goConstrain w lo hi := by
  unfold goConstrain; split_ifs <;> omega

theorem runeWidth_noTab (rw : Char → Nat) (r : Char) (l : Nat) (h : r ≠ '\t') :
    runeWidth rw r l = rw r := by
  simp [runeWidth, h]

theorem sumW_cons (rw : Char → Nat) (r : Char) (rs : List Char) :
    sumW rw (r :: rs) = rw r + sumW rw rs := by
  simp [sumW]

theorem sumW_append (rw : Char → Nat) (a b : List Char) :
    sumW rw (a ++ b) = sumW rw a + sumW rw b := by
  simp [sumW]

theorem displayWidthAux_noTab (rw : Char → Nat) :
    ∀ (rs : List Char) (l : Nat), (∀ r ∈ rs, r ≠ '\t') →
      displayWidthAux rw rs l = l + sumW rw rs
  | [], l, _ => by simp [displayWidthAux, sumW]
  | r :: rs, l, h => by
    have hr : r ≠ '\t' := h r (List.mem_cons_self r rs)
    have ht : ∀ x ∈ rs, x ≠ '\t' := fun x hx => h x (List.mem_cons_of_mem r hx)
    rw [displayWidthAux, runeWidth_noTab rw r l hr,
      displayWidthAux_noTab rw rs (l + rw r) ht, sumW_cons]
    omega

theorem displayWidth_noTab (rw : Char → Nat) (rs : List Char)
    (h : ∀ r ∈ rs, r ≠ '\t') : displayWidth rw rs = sumW rw rs := by
  rw [displayWidth, displayWidthAux_noTab rw rs 0 h]; omega

theorem trimRightK_ge (rw : Char → Nat) (width : Int) :
    ∀ (rs : List Char) (idx l : Nat), idx ≤ trimRightK rw width rs idx l
  | [], idx, l => by simp [trimRightK]
  | r :: rs, idx, l => by
    rw [trimRightK]
    split
    · exact Nat.le_refl idx
    · exact Nat.le_trans (Nat.le_succ idx) (trimRightK_ge rw width rs (idx + 1) _)

theorem trimRightK_bound (rw : Char → Nat) (width : Int) (hw : 0 ≤ width) :
    ∀ (rs : List Char) (idx l : Nat), (∀ r ∈ rs, r ≠ '\t') →
      (1 ≤ idx → (l : Int) ≤ width) → (idx = 0 → l = 0) →
      (idx = 0 → ∀ r rs2, rs = r :: rs2 → ((rw r : Nat) : Int) ≤ width) →
      (l : Int) + (sumW rw (rs.take (trimRightK rw width rs idx l - idx)) : Nat) ≤ width
  | [], idx, l, _, h1, h0, _ => by
    rcases Nat.eq_zero_or_pos idx with h | h
    · simp [trimRightK, h0 h, sumW]; omega
    · simp [trimRightK, sumW]; exact h1 h
  | r :: rs, idx, l, hTab, h1, h0, hHead => by
    have hr : r ≠ '\t' := hTab r (List.mem_cons_self r rs)
    have ht : ∀ x ∈ rs, x ≠ '\t' := fun x hx => hTab x (List.mem_cons_of_mem r hx)
    rw [trimRightK, runeWidth_noTab rw r l hr]
    split
    · next hc =>
      simp only [Nat.sub_self, List.take_zero]
      simp [sumW]
      exact h1 hc.1
    · next hc =>
      have hK := trimRightK_ge rw width rs (idx + 1) (l + rw r)
      have hstep : trimRightK rw width rs (idx + 1) (l + rw r) - idx =
          (trimRightK rw width rs (idx + 1) (l + rw r) - (idx + 1)) + 1 := by omega
      rw [hstep, List.take_succ_cons, sumW_cons]
      have hlw : ((l + rw r : Nat) : Int) ≤ width := by
        rcases Nat.eq_zero_or_pos idx with hz | hp
        · have := hHead hz r rs rfl
          have := h0 hz
          push_cast
          omega
        · rcases not_and_or.mp hc with h | h
          · omega
          · push_cast at h ⊢; omega
      have := trimRightK_bound rw width hw rs (idx + 1) (l + rw r) ht
        (fun _ => hlw) (by omega) (by omega)
      push_cast at this ⊢
      omega

/-- On tab-free text whose first rune fits, `trimRight` keeps at most
`width` columns. -/
theorem trimRight_width_le (rw : Char → Nat) (text : List Char) (width : Int)
    (hw : 0 ≤ width) (hTab : ∀ r ∈ text, r ≠ '\t')
    (hfirst : ((firstRuneWidth rw text : Nat) : Int) ≤ width) :
    (sumW rw (trimRight rw text width).1 : Int) ≤ width := by
  have h := trimRightK_bound rw width hw text 0 0 hTab (by omega) (fun _ => rfl)
    (fun _ r rs2 heq => by
      have : firstRuneWidth rw text = runeWidth rw r 0 := by rw [heq]; rfl
      rw [this, runeWidth_noTab rw r 0 (hTab r (heq ▸ List.mem_cons_self r rs2))] at hfirst
      exact hfirst)
  simpa [trimRight] using h

theorem dwlAux_noTab_le (rw : Char → Nat) (p : Nat) (limit : Int) :
    ∀ (rs : List Char) (l : Nat), (∀ r ∈ rs, r ≠ '\t') →
      ((dwlAux rw p limit rs l : Nat) : Int) ≤ limit →
      dwlAux rw p limit rs l = l + sumW rw rs
  | [], l, _, _ => by simp [dwlAux, sumW]
  | r :: rs, l, hTab, hle => by
    have hr : r ≠ '\t' := hTab r (List.mem_cons_self r rs)
    have ht : ∀ x ∈ rs, x ≠ '\t' := fun x hx => hTab x (List.mem_cons_of_mem r hx)
    rw [dwlAux, runeWidth_noTab rw r _ hr] at hle ⊢
    by_cases hc : ((l + rw r : Nat) : Int) > limit
    · rw [if_pos hc] at hle
      omega
    · rw [if_neg hc] at hle ⊢
      rw [dwlAux_noTab_le rw p limit rs (l + rw r) ht hle, sumW_cons]
      omega

theorem trimLeftAux_noTab (rw : Char → Nat) (width : Int) :
    ∀ (rs : List Char) (t : Int) (cw : Nat), (∀ r ∈ rs, r ≠ '\t') →
      ∀ r ∈ (trimLeftAux rw width rs t cw).1, r ≠ '\t'
  | [], t, cw, _ => by simp [trimLeftAux]
  | r :: rs, t, cw, hTab => by
    rw [trimLeftAux]
    split
    · exact trimLeftAux_noTab rw width rs (t + 1) _
        (fun x hx => hTab x (List.mem_cons_of_mem r hx))
    · exact hTab

theorem trimLeftAux_bound (rw : Char → Nat) (width : Int) (hw : 0 ≤ width) :
    ∀ (rs : List Char) (t : Int) (cw : Nat), (∀ r ∈ rs, r ≠ '\t') →
      (cw = displayWidth rw rs ∨ cw = displayWidthWithLimit rw rs 2 width) →
      (sumW rw (trimLeftAux rw width rs t cw).1 : Int) ≤ width
  | [], t, cw, _, _ => by simp [trimLeftAux, sumW]; omega
  | r :: rs, t, cw, hTab, hcw => by
    rw [trimLeftAux]
    split
    · exact trimLeftAux_bound rw width hw rs (t + 1) _
        (fun x hx => hTab x (List.mem_cons_of_mem r hx)) (Or.inr rfl)
    · next hc =>
      have hle : (cw : Int) ≤ width := by omega
      dsimp only
      rcases hcw with h | h
      · rw [displayWidth_noTab rw (r :: rs) hTab] at h
        omega
      · rw [displayWidthWithLimit] at h
        have := dwlAux_noTab_le rw 2 width (r :: rs) 0 hTab (by omega)
        rw [← h] at this
        omega

theorem paintOffsetsAux_wf (maxOffset : Int) :
    ∀ (ps : List (Int × Int)) (index : Int), 0 ≤ index → index ≤ maxOffset →
      (∀ p ∈ ps, p.1 ≤ p.2) →
      ∀ q ∈ paintOffsetsAux maxOffset ps index,
        0 ≤ q.1 ∧ q.1 ≤ q.2 ∧ q.2 ≤ maxOffset
  | [], _, _, _, _ => by simp [paintOffsetsAux]
  | p :: ps, index, h0, hM, hwf => by
    intro q hq
    have hwfp := hwf p (List.mem_cons_self p ps)
    have hb_lo := goConstrain_ge_left p.1 index maxOffset hM
    have hb_hi := goConstrain_le_right p.1 index maxOffset hM
    have he_lo := goConstrain_ge_left p.2 index maxOffset hM
    have he_hi := goConstrain_le_right p.2 index maxOffset hM
    have hbe := goConstrain_mono p.1 p.2 index maxOffset hwfp hM
    rw [paintOffsetsAux] at hq
    rcases List.mem_cons.mp hq with hq | hq
    · subst hq; exact ⟨by omega, hbe, he_hi⟩
    · split at hq
      · simp at hq
      · next hlt =>
        exact paintOffsetsAux_wf maxOffset ps (goConstrain p.2 index maxOffset)
          (by omega) (by omega)
          (fun x hx => hwf x (List.mem_cons_of_mem p hx)) q hq

theorem goMax_ge_left (a b : Int) : a ≤ goMax a b := by
  unfold goMax; split_ifs <;> omega

theorem goMax_ge_right (a b : Int) : b ≤ goMax a b := by
  unfold goMax; split_ifs <;> omega

theorem goMax_two_nonneg (x : Int) : 0 ≤ goMax x 2 :=
  le_trans (by omega) (goMax_ge_right x 2)

theorem paintOffsets_wf (textLen : Nat) (offsets : List (Int × Int))
    (h : ∀ p ∈ offsets, p.1 ≤ p.2) :
    ∀ q ∈ paintOffsets textLen offsets,
      0 ≤ q.1 ∧ q.1 ≤ q.2 ∧ q.2 ≤ (textLen : Int) :=
  paintOffsetsAux_wf (textLen : Int) offsets 0 le_rfl (Int.natCast_nonneg textLen) h

/-- Items that fit within `maxWidth` are painted untruncated. -/
theorem truncateItem_id (rw : Char → Nat) (hscroll : Bool) (maxWidth : Int)
    (text : List Char) (maxe : Int) (offsets : List (Int × Int))
    (hover : ¬ ((displayWidth rw text : Int) > maxWidth)) :
    truncateItem rw hscroll maxWidth text maxe offsets = (text, offsets) := by
  simp only [truncateItem]
  rw [if_neg hover]

/-- On tab-free text with a fitting first rune, truncation keeps the
painted width within `maxWidth`. -/
theorem truncateItem_width (rw : Char → Nat) (hscroll : Bool) (maxWidth : Int)
    (text : List Char) (maxe : Int) (offsets : List (Int × Int))
    (hTab : ∀ r ∈ text, r ≠ '\t') (hdot : rw '.' = 1) (hmw : 2 ≤ maxWidth)
    (hfirst : ((firstRuneWidth rw text : Nat) : Int) ≤ maxWidth - 2)
    (hover : (displayWidth rw text : Int) > maxWidth) :
    (displayWidth rw (truncateItem rw hscroll maxWidth text maxe offsets).1 : Int)
      ≤ maxWidth := by
  have hw2 : (0 : Int) ≤ maxWidth - 2 := by omega
  have hTrimR : (sumW rw (trimRight rw text (maxWidth - 2)).1 : Int) ≤ maxWidth - 2 :=
    trimRight_width_le rw text (maxWidth - 2) hw2 hTab hfirst
  have hKeepTab : ∀ r ∈ (trimRight rw text (maxWidth - 2)).1, r ≠ '\t' := by
    intro r hr
    exact hTab r (List.take_subset _ _ hr)
  have hRight : (displayWidth rw ((trimRight rw text (maxWidth - 2)).1 ++ ['.', '.']) : Int)
      ≤ maxWidth := by
    have hTab2 : ∀ r ∈ (trimRight rw text (maxWidth - 2)).1 ++ ['.', '.'], r ≠ '\t' := by
      intro r hr
      rcases List.mem_append.mp hr with h | h
      · exact hKeepTab r h
      · simp at h; subst h; decide
    rw [displayWidth_noTab rw _ hTab2, sumW_append]
    have : sumW rw ['.', '.'] = 2 := by simp [sumW, hdot]
    rw [this]
    push_cast at hTrimR ⊢
    omega
  simp only [truncateItem]
  rw [if_pos hover]
  cases hscroll with
  | false =>
    simpa using hRight
  | true =>
    rw [if_pos rfl]
    by_cases hmatch : ((displayWidth rw (text.take maxe.toNat) : Nat) : Int) ≤ maxWidth - 2
    · rw [if_pos hmatch]
      exact hRight
    · rw [if_neg hmatch]
      -- the `..ri..` branch: trim from the left, then prepend the marker
      set text1 := if ((displayWidth rw (text.take maxe.toNat) : Nat) : Int) <
          (displayWidth rw text : Int) - 2 then text.take maxe.toNat ++ ['.', '.'] else text with htext1
      have hTab1 : ∀ r ∈ text1, r ≠ '\t' := by
        rw [htext1]
        split
        · intro r hr
          rcases List.mem_append.mp hr with h | h
          · exact hTab r (List.take_subset _ _ h)
          · simp at h; subst h; decide
        · exact hTab
      have hTabL : ∀ r ∈ (trimLeftAux rw (maxWidth - 2) text1 0 (displayWidth rw text1)).1,
          r ≠ '\t' := trimLeftAux_noTab rw (maxWidth - 2) text1 0 _ hTab1
      have hBound : (sumW rw (trimLeftAux rw (maxWidth - 2) text1 0
          (displayWidth rw text1)).1 : Int) ≤ maxWidth - 2 :=
        trimLeftAux_bound rw (maxWidth - 2) hw2 text1 0 _ hTab1 (Or.inl rfl)
      have hTabAll : ∀ r ∈ '.' :: '.' ::
          (trimLeftAux rw (maxWidth - 2) text1 0 (displayWidth rw text1)).1, r ≠ '\t' := by
        intro r hr
        rcases List.mem_cons.mp hr with h | hr
        · subst h; decide
        rcases List.mem_cons.mp hr with h | hr
        · subst h; decide
        · exact hTabL r hr
      simp only [trimLeft]
      rw [displayWidth_noTab rw _ hTabAll, sumW_cons, sumW_cons, hdot]
      push_cast at hBound ⊢
      omega

/-- Adjusted offsets keep `0 ≤ start ≤ end` (given well-formed inputs and
`maxWidth ≥ 2`). -/
theorem truncateItem_offsets_wf (rw : Char → Nat) (hscroll : Bool)
    (maxWidth : Int) (text : List Char) (maxe : Int)
    (offsets : List (Int × Int)) (hmw : 2 ≤ maxWidth)
    (hwf : ∀ p ∈ offsets, 0 ≤ p.1 ∧ p.1 ≤ p.2) :
    ∀ p ∈ (truncateItem rw hscroll maxWidth text maxe offsets).2,
      0 ≤ p.1 ∧ p.1 ≤ p.2 := by
  simp only [truncateItem]
  by_cases hover : ((displayWidth rw text : Nat) : Int) > maxWidth
  · rw [if_pos hover]
    cases hscroll with
    | false =>
      simp only [Bool.false_eq_true, if_false]
      intro p hp
      rcases List.mem_map.mp hp with ⟨q, hq, rfl⟩
      have hq' := hwf q hq
      constructor
      · unfold goMin; split_ifs <;> omega
      · unfold goMin; split_ifs <;> omega
    | true =>
      rw [if_pos rfl]
      by_cases hmatch : ((displayWidth rw (text.take maxe.toNat) : Nat) : Int) ≤ maxWidth - 2
      · rw [if_pos hmatch]
        exact hwf
      · rw [if_neg hmatch]
        intro p hp
        rcases List.mem_map.mp hp with ⟨q, hq, rfl⟩
        exact ⟨goMax_two_nonneg _, goMax_ge_left _ _⟩
  · rw [if_neg hover]
    exact hwf

/-- C1, corrected.  For an item whose full display width exceeds
`maxWidth = terminalWidth - 3`, provided the text is tab-free, `maxWidth ≥
2`, the first code point fits in `maxWidth - 2` columns and the ellipsis
dot is one column wide, the painted text (with the `..` markers) has
display width at most `maxWidth`; every adjusted offset satisfies
`0 ≤ start ≤ end`, and the clamped spans actually painted additionally
satisfy `end ≤ length of the truncated text`; an item whose full width is
at most `maxWidth` is painted without truncation. -/
theorem fzfC1_truncation (rw : Char → Nat) (hscroll : Bool) (maxWidth : Int)
    (text : List Char) (maxe : Int) (offsets : List (Int × Int))
    (hTab : ∀ r ∈ text, r ≠ '\t') (hdot : rw '.' = 1) (hmw : 2 ≤ maxWidth)
    (hfirst : ((firstRuneWidth rw text : Nat) : Int) ≤ maxWidth - 2)
    (hwf : ∀ p ∈ offsets, 0 ≤ p.1 ∧ p.1 ≤ p.2) :
    (((displayWidth rw text : Int) ≤ maxWidth) →
       truncateItem rw hscroll maxWidth text maxe offsets = (text, offsets)) ∧
    (((displayWidth rw text : Int) > maxWidth) →
       (displayWidth rw (truncateItem rw hscroll maxWidth text maxe offsets).1 : Int)
         ≤ maxWidth) ∧
    (∀ p ∈ (truncateItem rw hscroll maxWidth text maxe offsets).2,
       0 ≤ p.1 ∧ p.1 ≤ p.2) ∧
    (∀ q ∈ paintOffsets (truncateItem rw hscroll maxWidth text maxe offsets).1.length
         (truncateItem rw hscroll maxWidth text maxe offsets).2,
       0 ≤ q.1 ∧ q.1 ≤ q.2 ∧
         q.2 ≤ ((truncateItem rw hscroll maxWidth text maxe offsets).1.length : Int)) := by
  refine ⟨?_, ?_, ?_, ?_⟩
  · intro hle
    exact truncateItem_id rw hscroll maxWidth text maxe offsets (by omega)
  · intro hover
    exact truncateItem_width rw hscroll maxWidth text maxe offsets hTab hdot hmw hfirst hover
  · exact truncateItem_offsets_wf rw hscroll maxWidth text maxe offsets hmw hwf
  · exact paintOffsets_wf _ _
      (fun p hp => (truncateItem_offsets_wf rw hscroll maxWidth text maxe offsets hmw hwf p hp).2)

/-- C1 counterexample to the claim as stated: with terminal width 12
(`maxWidth = 9`), horizontal scroll disabled, the tab-leading item
`"\tab"` has full width 10 > 9, yet the painted truncated text `"\t.."`
has display width 10 > 9 (the first rune is always kept by `trimRight`),
and the adjusted offset `(0, 5)` has `end = 5` exceeding the truncated
text length 3. -/
theorem fzfC1_counterexample :
    ((displayWidth unitWidth ['\t', 'a', 'b'] : Int) > 9) ∧
    ¬ ((displayWidth unitWidth
        (truncateItem unitWidth false 9 ['\t', 'a', 'b'] 0 [(0, 5)]).1 : Int) ≤ 9) ∧
    ¬ (∀ p ∈ (truncateItem unitWidth false 9 ['\t', 'a', 'b'] 0 [(0, 5)]).2,
        p.2 ≤ ((truncateItem unitWidth false 9 ['\t', 'a', 'b'] 0 [(0, 5)]).1.length : Int)) := by
  decide

/-- Witness for `fzfC1_truncation` at a concrete input: one-column runes,
`maxWidth = 4`, text `abcdef`, highlight span `(0, 3)`. -/
theorem fzfC1_truncation_witness :
    ((∀ r ∈ ['a', 'b', 'c', 'd', 'e', 'f'], r ≠ '\t') ∧
     unitWidth '.' = 1 ∧ (2 : Int) ≤ 4 ∧
     ((firstRuneWidth unitWidth ['a', 'b', 'c', 'd', 'e', 'f'] : Nat) : Int) ≤ 4 - 2 ∧
     (∀ p ∈ [((0 : Int), (3 : Int))], 0 ≤ p.1 ∧ p.1 ≤ p.2)) ∧
    ((((displayWidth unitWidth ['a', 'b', 'c', 'd', 'e', 'f'] : Int) ≤ 4) →
       truncateItem unitWidth false 4 ['a', 'b', 'c', 'd', 'e', 'f'] 0 [(0, 3)] =
         (['a', 'b', 'c', 'd', 'e', 'f'], [(0, 3)])) ∧
     (((displayWidth unitWidth ['a', 'b', 'c', 'd', 'e', 'f'] : Int) > 4) →
       (displayWidth unitWidth
         (truncateItem unitWidth false 4 ['a', 'b', 'c', 'd', 'e', 'f'] 0 [(0, 3)]).1 : Int) ≤ 4) ∧
     (∀ p ∈ (truncateItem unitWidth false 4 ['a', 'b', 'c', 'd', 'e', 'f'] 0 [(0, 3)]).2,
        0 ≤ p.1 ∧ p.1 ≤ p.2) ∧
     (∀ q ∈ paintOffsets
          (truncateItem unitWidth false 4 ['a', 'b', 'c', 'd', 'e', 'f'] 0 [(0, 3)]).1.length
          (truncateItem unitWidth false 4 ['a', 'b', 'c', 'd', 'e', 'f'] 0 [(0, 3)]).2,
        0 ≤ q.1 ∧ q.1 ≤ q.2 ∧
          q.2 ≤ ((truncateItem unitWidth false 4
            ['a', 'b', 'c', 'd', 'e', 'f'] 0 [(0, 3)]).1.length : Int))) :=
  ⟨⟨by decide, rfl, by decide, by decide, by decide⟩,
   fzfC1_truncation unitWidth false 4 ['a', 'b', 'c', 'd', 'e', 'f'] 0 [(0, 3)]
     (by decide) rfl (by decide) (by decide) (by decide)⟩

/-! Viewport manager: `constrain`, `vmove`, `vset` from terminal.go,
with the fields they read (`cy`, `offset`, `merger.Length()`,
`maxItems()`) passed explicitly. -/

/-- `constrain` from terminal.go: clamp the cursor row into
`[0, count-1]`, scroll so the cursor is visible (ceiling/floor rules) and
re-anchor the window when fewer than `height` items remain below
`offset`.  Returns the new `(cy, offset)`. -/
def constrain (cy offset count height : Int) : Int × Int :=
  let diffpos := cy - offset
  let cy1 := goConstrain cy 0 (count - 1)
  let off1 :=
    if cy1 > offset + (height - 1) then cy1 - (height - 1)
    else if offset > cy1 then cy1 else offset
  if count - off1 < height then
    let off2 := goMax 0 (count - height)
    (goConstrain (off2 + diffpos) 0 (count - 1), off2)
  else (cy1, off1)

/-- `vset` from terminal.go: clamp `o` into `[0, count-1]`, report whether
the clamp was the identity. -/
def vset (count o : Int) : Int × Bool :=
  (goConstrain o 0 (count - 1), decide (goConstrain o 0 (count - 1) = o))

/-- `vmove` from terminal.go: negate the delta in reversed layout, wrap at
the exact boundary rows when cycling, then `vset`.  Returns the new `cy`. -/
def vmove (cy count : Int) (reverse cycle : Bool) (o : Int) : Int :=
  let o1 := if reverse then -o else o
  let dest := cy + o1
  let dest1 :=
    if cycle then
      if dest > count - 1 then (if cy = count - 1 then 0 else dest)
      else if dest < 0 then (if cy = 0 then count - 1 else dest)
      else dest
    else dest
  (vset count dest1).1

/-- C3 counterexample to the claim as stated: from the prior state
`(cy, offset) = (7, 9)` with `count = 10`, `height = 5`, one application
of `constrain` yields `(3, 5)` but a second application yields `(3, 3)`. -/
theorem fzfC3_counterexample :
    constrain 7 9 10 5 = (3, 5) ∧
    ¬ (constrain (constrain 7 9 10 5).1 (constrain 7 9 10 5).2 10 5 =
        constrain 7 9 10 5) := by
  decide

theorem goConstrain_spec (val lo hi : Int) :
    (val < lo ∧ goConstrain val lo hi = lo) ∨
    (¬ val < lo ∧ val > hi ∧ goConstrain val lo hi = hi) ∨
    (¬ val < lo ∧ ¬ val > hi ∧ goConstrain val lo hi = val) := by
  unfold goConstrain; split_ifs <;> simp_all

theorem goMax_spec (a b : Int) :
    (a > b ∧ goMax a b = a) ∨ (¬ a > b ∧ goMax a b = b) := by
  unfold goMax; split_ifs <;> simp_all

/-- States on which `constrain` is the identity: cursor in range, cursor
inside the window, and either at least `height` items below `offset` or a
window anchored at 0 over a list shorter than the window. -/
theorem constrain_fix (cy offset count height : Int)
    (h0 : 0 ≤ cy) (h1 : cy ≤ count - 1) (h2 : offset ≤ cy)
    (h3 : cy ≤ offset + height - 1)
    (h4 : height ≤ count - offset ∨ (offset = 0 ∧ count < height)) :
    constrain cy offset count height = (cy, offset) := by
  have A := goConstrain_spec cy 0 (count - 1)
  have B := goMax_spec 0 (count - height)
  have C := goConstrain_spec (goMax 0 (count - height) + (cy - offset)) 0 (count - 1)
  simp only [constrain]
  split_ifs <;> simp only [Prod.mk.injEq, and_true, true_and] <;> omega

/-- One application of `constrain` from any prior state with
`offset ≤ cy` lands in the fixed-point region of `constrain_fix`. -/
theorem after_constrain (cy offset count height : Int)
    (hc : 1 ≤ count) (hh : 1 ≤ height) (hoc : offset ≤ cy) :
    0 ≤ (constrain cy offset count height).1 ∧
    (constrain cy offset count height).1 ≤ count - 1 ∧
    (constrain cy offset count height).2 ≤ (constrain cy offset count height).1 ∧
    (constrain cy offset count height).1 ≤
      (constrain cy offset count height).2 + height - 1 ∧
    (height ≤ count - (constrain cy offset count height).2 ∨
      ((constrain cy offset count height).2 = 0 ∧ count < height)) := by
  have A := goConstrain_spec cy 0 (count - 1)
  have B := goMax_spec 0 (count - height)
  have C := goConstrain_spec (goMax 0 (count - height) + (cy - offset)) 0 (count - 1)
  simp only [constrain]
  split_ifs <;> simp only [Prod.fst, Prod.snd] <;> omega

/-- C3, corrected: `constrain` is idempotent for every prior state with
`offset ≤ cy`, provided `count ≥ 1` and `height ≥ 1`. -/
theorem fzfC3_constrain_idempotent (cy offset count height : Int)
    (hc : 1 ≤ count) (hh : 1 ≤ height) (hoc : offset ≤ cy) :
    constrain (constrain cy offset count height).1
      (constrain cy offset count height).2 count height =
      constrain cy offset count height := by
  obtain ⟨h0, h1, h2, h3, h4⟩ := after_constrain cy offset count height hc hh hoc
  rw [constrain_fix _ _ count height h0 h1 h2 (by omega) h4]

/-- Witness for `fzfC3_constrain_idempotent` at `(cy, offset, count,
height) = (0, 0, 5, 3)`. -/
theorem fzfC3_constrain_idempotent_witness :
    ((1 : Int) ≤ 5 ∧ (1 : Int) ≤ 3 ∧ (0 : Int) ≤ 0) ∧
    constrain (constrain 0 0 5 3).1 (constrain 0 0 5 3).2 5 3 =
      constrain 0 0 5 3 :=
  ⟨⟨by decide, by decide, by decide⟩,
   fzfC3_constrain_idempotent 0 0 5 3 (by decide) (by decide) (by decide)⟩

/-- C4 counterexample to the claim as stated: in non-reversed layout with
5 items and the cursor on row 0, `vmove(-1)` leaves the cursor on row 0
(without cycling) or wraps it to row 4 (with cycling) — it never moves the
cursor to row 1. -/
theorem fzfC4_counterexample :
    vmove 0 5 false false (-1) = 0 ∧ vmove 0 5 false true (-1) = 4 ∧
    ¬ (vmove 0 5 false false (-1) = 1) ∧ ¬ (vmove 0 5 false true (-1) = 1) := by
  decide

/-- C4, corrected: the same scenario holds in the reversed layout (the
delta is negated there): with 5 items, cycling enabled and the cursor on
row 0, `vmove(-1)` moves the cursor to row 1, `vmove(1)` moves it back to
row 0, and at row 0 `vmove(1)` wraps the cursor to row 4. -/
theorem fzfC4_vmove_scenario :
    vmove 0 5 true true (-1) = 1 ∧ vmove 1 5 true true 1 = 0 ∧
    vmove 0 5 true true 1 = 4 := by
  decide

/-- C5: with cycling enabled, `vmove` wraps only when the cursor sits
exactly on the boundary row it would leave (last row when overshooting,
row 0 when undershooting); otherwise an out-of-range destination is
clamped into `[0, count-1]`; the delta is negated first in reversed
layout; in-range destinations are taken as is. -/
theorem fzfC5_vmove_wrap (cy count o : Int) (reverse : Bool)
    (h0 : 0 ≤ cy) (h1 : cy ≤ count - 1) :
    ((cy + (if reverse then -o else o) > count - 1 →
       (cy = count - 1 → vmove cy count reverse true o = 0) ∧
       (cy ≠ count - 1 → vmove cy count reverse true o = count - 1)) ∧
     (cy + (if reverse then -o else o) < 0 →
       (cy = 0 → vmove cy count reverse true o = count - 1) ∧
       (cy ≠ 0 → vmove cy count reverse true o = 0)) ∧
     (0 ≤ cy + (if reverse then -o else o) →
      cy + (if reverse then -o else o) ≤ count - 1 →
       vmove cy count reverse true o = cy + (if reverse then -o else o))) := by
  cases reverse <;>
    simp only [vmove, vset, goConstrain, if_true, if_false] <;>
    split_ifs <;> refine ⟨fun h => ⟨fun h2 => by omega, fun h2 => by omega⟩,
      fun h => ⟨fun h2 => by omega, fun h2 => by omega⟩, fun h h2 => by omega⟩

/-- Witness for `fzfC5_vmove_wrap`: cursor on the last row of 5, delta 1,
non-reversed — wraps to row 0. -/
theorem fzfC5_vmove_wrap_witness :
    ((0 : Int) ≤ 4 ∧ (4 : Int) ≤ 5 - 1) ∧
    (((4 : Int) + (if false then -1 else 1) > 5 - 1 →
       ((4 : Int) = 5 - 1 → vmove 4 5 false true 1 = 0) ∧
       ((4 : Int) ≠ 5 - 1 → vmove 4 5 false true 1 = 5 - 1)) ∧
     ((4 : Int) + (if false then -1 else 1) < 0 →
       ((4 : Int) = 0 → vmove 4 5 false true 1 = 5 - 1) ∧
       ((4 : Int) ≠ 0 → vmove 4 5 false true 1 = 0)) ∧
     (0 ≤ (4 : Int) + (if false then -1 else 1) →
      (4 : Int) + (if false then -1 else 1) ≤ 5 - 1 →
       vmove 4 5 false true 1 = 4 + (if false then -1 else 1))) :=
  ⟨⟨by decide, by decide⟩, fzfC5_vmove_wrap 4 5 1 false (by decide) (by decide)⟩

/-! Word-motion boundary patterns.  The Go code compiles one of three
fixed regular expressions and takes the byte index of the first or last
match over the UTF-8 encoding of a rune slice (`string([]rune)`); for
every code point the Go regexp engine matches rune-wise but reports byte
offsets.  The three patterns are embedded by their matching semantics.
The two-rune patterns can never match at two adjacent positions (the
second rune of a match fails the first-rune class), so Go's leftmost
non-overlapping enumeration `FindAllStringIndex` visits every matching
position, and its last entry is the largest matching position. -/

/-- UTF-8 encoded length of a code point (Go `len(string(r))` for valid
runes). -/
def utf8Len (c : Char) : Nat :=
  if c.toNat < 0x80 then 1
  else if c.toNat < 0x800 then 2
  else if c.toNat < 0x10000 then 3
  else 4

/-- Go regexp `[[:alnum:]]`: ASCII letters and digits. -/
def isAlnum (c : Char) : Bool :=
  (('0' ≤ c ∧ c ≤ '9') ∨ ('A' ≤ c ∧ c ≤ 'Z') ∨ ('a' ≤ c ∧ c ≤ 'z') : Prop)

/-- Go regexp `\s`: `[\t\n\f\r ]`. -/
def isSpace (c : Char) : Bool :=
  (c = ' ' ∨ c = '\t' ∨ c = '\n' ∨ c = '\r' ∨ c = '\x0c' : Prop)

/-- The three boundary patterns compiled by the word motions. -/
inductive Pat where
  /-- `[^[:alnum:]][[:alnum:]]` (backward-word, backward-kill-word). -/
  | wordBoundaryLeft
  /-- `\s\S` (unix-word-rubout). -/
  | spaceNonspace
  /-- `[[:alnum:]][^[:alnum:]]|(.$)` (forward-word, kill-word). -/
  | wordEndOrLast
deriving DecidableEq

/-- Whether a pattern matches a two-rune window. -/
def pairMatches : Pat → Char → Char → Bool
  | .wordBoundaryLeft, a, b => !isAlnum a && isAlnum b
  | .spaceNonspace, a, b => isSpace a && !isSpace b
  | .wordEndOrLast, a, b => isAlnum a && !isAlnum b

/-- Whether a pattern matches the final rune alone (`(.$)`; RE2 `.`
excludes the newline, `$` anchors at end of text). -/
def lastMatches : Pat → Char → Bool
  | .wordEndOrLast, a => a ≠ '\n'
  | _, _ => false

/-- Byte positions (ascending) at which the pattern matches, starting the
count at `pos`. -/
def matchPositions (p : Pat) : List Char → Nat → List Nat
  | [], _ => []
  | [a], pos => if lastMatches p a then [pos] else []
  | a :: b :: rest, pos =>
    (if pairMatches p a b then [pos] else []) ++
      matchPositions p (b :: rest) (pos + utf8Len a)

/-- `findLastMatch` from terminal.go: byte index of the start of the last
match, `-1` when there is none. -/
def findLastMatch (p : Pat) (str : List Char) : Int :=
  match (matchPositions p str 0).getLast? with
  | some n => (n : Int)
  | none => -1

/-- `findFirstMatch` from terminal.go: byte index of the start of the
first (leftmost) match, `-1` when there is none. -/
def findFirstMatch (p : Pat) (str : List Char) : Int :=
  match (matchPositions p str 0).head? with
  | some n => (n : Int)
  | none => -1

/-! The dispatcher state.  `Terminal` fields that the modelled actions
read or write; `merger` stands for the current `Merger` snapshot
(`Length()`/`Get(i)`), `height` for `maxItems()` (a pure function of the
driver's screen size). -/

/-- The parts of an `Item` the dispatcher uses: the stable identity key
`item.index` and the captured text (`AsString`/`StringPtr`). -/
structure Item where
  index : Nat
  text : List Char
deriving DecidableEq

/-- `selectedItem` from terminal.go; `time.Now()` timestamps are embedded
as naturals increasing over the session. -/
structure SelItem where
  time : Nat
  text : List Char
deriving DecidableEq

/-- Request kinds posted to the coalescing mailbox. -/
inductive Req where
  | reqPrompt
  | reqInfo
  | reqList
  | reqRefresh
  | reqRedraw
  | reqClose
  | reqQuit
deriving DecidableEq

/-- Dispatcher-visible terminal state. -/
structure TState where
  input : List Char
  cx : Int
  yanked : List Char
  cy : Int
  offset : Int
  selected : List (Nat × SelItem)
  multi : Bool
  reverse : Bool
  cycle : Bool
  hscroll : Bool
  printQuery : Bool
  expect : List Nat
  pressed : Nat
  merger : List Item
  height : Int
deriving DecidableEq

/-- A state with every field at its zero value; concrete scenarios
override the fields they use. -/
def baseState : TState where
  input := []
  cx := 0
  yanked := []
  cy := 0
  offset := 0
  selected := []
  multi := false
  reverse := false
  cycle := false
  hscroll := false
  printQuery := false
  expect := []
  pressed := 0
  merger := []
  height := 10

/-- The semantic actions of the keymap that the embedding models (the
actions whose effect is confined to the dispatcher state; `actExecute`,
`actClearScreen`, history navigation and mouse events involve external
collaborators and are not needed by the claims below). -/
inductive Action where
  | actBeginningOfLine
  | actAbort
  | actAccept
  | actBackwardChar
  | actBackwardDeleteChar
  | actBackwardWord
  | actDeleteChar
  | actEndOfLine
  | actForwardChar
  | actForwardWord
  | actKillLine
  | actKillWord
  | actUnixLineDiscard
  | actUnixWordRubout
  | actYank
  | actBackwardKillWord
  | actSelectAll
  | actDeselectAll
  | actToggle
  | actToggleAll
  | actToggleDown
  | actToggleUp
  | actDown
  | actUp
  | actPageUp
  | actPageDown
  | actRune (c : Char)
deriving DecidableEq

/-- Placeholder item returned by `merger.Get` out of range (the Go code
would panic there; the claims below only read in-range rows). -/
def dummyItem : Item := ⟨0, []⟩

/-- Association-list view of the `selected` map: first binding of a key. -/
def lookupSel (sel : List (Nat × SelItem)) (k : Nat) : Option SelItem :=
  match sel.find? (fun q => q.1 == k) with
  | some q => some q.2
  | none => none

/-- `selectItem` closure from `Loop`: insert only when the key is absent;
report whether an insertion happened. -/
def selectItem (sel : List (Nat × SelItem)) (it : Item) (now : Nat) :
    List (Nat × SelItem) × Bool :=
  match lookupSel sel it.index with
  | none => (sel ++ [(it.index, ⟨now, it.text⟩)], true)
  | some _ => (sel, false)

/-- `toggleY` on a concrete item: select when absent, else delete. -/
def toggleItem (sel : List (Nat × SelItem)) (it : Item) (now : Nat) :
    List (Nat × SelItem) :=
  if (selectItem sel it now).2 then (selectItem sel it now).1
  else sel.filter (fun q => q.1 ≠ it.index)

/-- `toggleY` from `Loop`: toggle the item at row `y`. -/
def toggleY (sel : List (Nat × SelItem)) (merger : List Item) (y : Int)
    (now : Nat) : List (Nat × SelItem) :=
  toggleItem sel (merger.getD y.toNat dummyItem) now

/-- `actSelectAll` loop: `selectItem` over every item of the merger, in
order, with strictly increasing timestamps. -/
def selectAllLoop : List Item → List (Nat × SelItem) → Nat → List (Nat × SelItem)
  | [], sel, _ => sel
  | it :: rest, sel, now => selectAllLoop rest (selectItem sel it now).1 (now + 1)

/-- `actDeselectAll` loop: delete every merger item's key. -/
def deselectAllLoop : List Item → List (Nat × SelItem) → List (Nat × SelItem)
  | [], sel => sel
  | it :: rest, sel => deselectAllLoop rest (sel.filter (fun q => q.1 ≠ it.index))

/-- `actToggleAll` loop: `toggleY` over every row in order. -/
def toggleAllLoop : List Item → List (Nat × SelItem) → Nat → List (Nat × SelItem)
  | [], sel, _ => sel
  | it :: rest, sel, now => toggleAllLoop rest (toggleItem sel it now) (now + 1)

/-- `delChar` from terminal.go. -/
def delChar (s : TState) : TState × Bool :=
  if 0 < s.input.length ∧ s.cx < (s.input.length : Int) then
    ({ s with input := s.input.take s.cx.toNat ++ s.input.drop (s.cx.toNat + 1) },
     true)
  else (s, false)

/-- `rubout` from terminal.go: move the cursor to one past the last
boundary match strictly before it, store the removed span in the yank
buffer, delete it from the input.  (On multi-byte input the Go code can
compute a byte offset larger than the rune prefix, in which case its
slicing faults; the list `take`/`drop` used here clamps instead.  The
theorems below only evaluate this function on ASCII input, where byte and
rune offsets agree.) -/
def rubout (s : TState) (pat : Pat) : TState :=
  let pcx := s.cx
  let newCx := findLastMatch pat (s.input.take s.cx.toNat) + 1
  { s with
    cx := newCx
    yanked := (s.input.take pcx.toNat).drop newCx.toNat
    input := s.input.take newCx.toNat ++ s.input.drop pcx.toNat }

/-- One dispatch of the `Loop` action switch: the state mutation plus the
request kinds posted (in posting order; `events` always starts with
`reqPrompt`).  `now` is the current clock for selection timestamps. -/
def applyAction (now : Nat) (s : TState) : Action → TState × List Req
  | .actBeginningOfLine => ({ s with cx := 0 }, [.reqPrompt])
  | .actAbort => (s, [.reqPrompt, .reqQuit])
  | .actAccept => (s, [.reqPrompt, .reqClose])
  | .actBackwardChar =>
    (if 0 < s.cx then { s with cx := s.cx - 1 } else s, [.reqPrompt])
  | .actBackwardDeleteChar =>
    (if 0 < s.cx then
       { s with input := s.input.take (s.cx - 1).toNat ++ s.input.drop s.cx.toNat,
                cx := s.cx - 1 }
     else s, [.reqPrompt])
  | .actBackwardWord =>
    ({ s with cx := findLastMatch .wordBoundaryLeft (s.input.take s.cx.toNat) + 1 },
     [.reqPrompt])
  | .actDeleteChar =>
    if (delChar s).2 = false ∧ s.cx = 0 then ((delChar s).1, [.reqPrompt, .reqQuit])
    else ((delChar s).1, [.reqPrompt])
  | .actEndOfLine => ({ s with cx := (s.input.length : Int) }, [.reqPrompt])
  | .actForwardChar =>
    (if s.cx < (s.input.length : Int) then { s with cx := s.cx + 1 } else s,
     [.reqPrompt])
  | .actForwardWord =>
    ({ s with cx := s.cx + findFirstMatch .wordEndOrLast (s.input.drop s.cx.toNat) + 1 },
     [.reqPrompt])
  | .actKillLine =>
    (if s.cx < (s.input.length : Int) then
       { s with yanked := s.input.drop s.cx.toNat, input := s.input.take s.cx.toNat }
     else s, [.reqPrompt])
  | .actKillWord =>
    (if s.cx + findFirstMatch .wordEndOrLast (s.input.drop s.cx.toNat) + 1 > s.cx then
       { s with
         yanked := (s.input.take
             (s.cx + findFirstMatch .wordEndOrLast (s.input.drop s.cx.toNat) + 1).toNat).drop
           s.cx.toNat
         input := s.input.take s.cx.toNat ++
           s.input.drop
             (s.cx + findFirstMatch .wordEndOrLast (s.input.drop s.cx.toNat) + 1).toNat }
     else s, [.reqPrompt])
  | .actUnixLineDiscard =>
    (if 0 < s.cx then
       { s with yanked := s.input.take s.cx.toNat, input := s.input.drop s.cx.toNat,
                cx := 0 }
     else s, [.reqPrompt])
  | .actUnixWordRubout =>
    (if 0 < s.cx then rubout s .spaceNonspace else s, [.reqPrompt])
  | .actBackwardKillWord =>
    (if 0 < s.cx then rubout s .wordBoundaryLeft else s, [.reqPrompt])
  | .actYank =>
    ({ s with input := s.input.take s.cx.toNat ++ s.yanked ++ s.input.drop s.cx.toNat,
              cx := s.cx + (s.yanked.length : Int) },
     [.reqPrompt])
  | .actSelectAll =>
    if s.multi then
      ({ s with selected := selectAllLoop s.merger s.selected now },
       [.reqPrompt, .reqList, .reqInfo])
    else (s, [.reqPrompt])
  | .actDeselectAll =>
    if s.multi then
      ({ s with selected := deselectAllLoop s.merger s.selected },
       [.reqPrompt, .reqList, .reqInfo])
    else (s, [.reqPrompt])
  | .actToggle =>
    if s.multi ∧ 0 < s.merger.length then
      if s.cy < (s.merger.length : Int) then
        ({ s with selected := toggleY s.selected s.merger s.cy now },
         [.reqPrompt, .reqInfo, .reqList])
      else (s, [.reqPrompt, .reqList])
    else (s, [.reqPrompt])
  | .actToggleAll =>
    if s.multi then
      ({ s with selected := toggleAllLoop s.merger s.selected now },
       [.reqPrompt, .reqList, .reqInfo])
    else (s, [.reqPrompt])
  | .actToggleDown =>
    if s.multi ∧ 0 < s.merger.length then
      if s.cy < (s.merger.length : Int) then
        ({ s with selected := toggleY s.selected s.merger s.cy now,
                  cy := vmove s.cy (s.merger.length : Int) s.reverse s.cycle (-1) },
         [.reqPrompt, .reqInfo, .reqList])
      else ({ s with cy := vmove s.cy (s.merger.length : Int) s.reverse s.cycle (-1) },
            [.reqPrompt, .reqList])
    else (s, [.reqPrompt])
  | .actToggleUp =>
    if s.multi ∧ 0 < s.merger.length then
      if s.cy < (s.merger.length : Int) then
        ({ s with selected := toggleY s.selected s.merger s.cy now,
                  cy := vmove s.cy (s.merger.length : Int) s.reverse s.cycle 1 },
         [.reqPrompt, .reqInfo, .reqList])
      else ({ s with cy := vmove s.cy (s.merger.length : Int) s.reverse s.cycle 1 },
            [.reqPrompt, .reqList])
    else (s, [.reqPrompt])
  | .actDown =>
    ({ s with cy := vmove s.cy (s.merger.length : Int) s.reverse s.cycle (-1) },
     [.reqPrompt, .reqList])
  | .actUp =>
    ({ s with cy := vmove s.cy (s.merger.length : Int) s.reverse s.cycle 1 },
     [.reqPrompt, .reqList])
  | .actPageUp =>
    ({ s with cy := vmove s.cy (s.merger.length : Int) s.reverse s.cycle (s.height - 1) },
     [.reqPrompt, .reqList])
  | .actPageDown =>
    ({ s with cy := vmove s.cy (s.merger.length : Int) s.reverse s.cycle (-(s.height - 1)) },
     [.reqPrompt, .reqList])
  | .actRune c =>
    ({ s with input := s.input.take s.cx.toNat ++ c :: s.input.drop s.cx.toNat,
              cx := s.cx + 1 },
     [.reqPrompt])

/-- `byTimeOrder` from terminal.go: the sort order used for the selected
items (`Less` compares `at` with `time.Time.Before`; a slice sorted by it
is nondecreasing in timestamp). -/
def byTimeOrder (a b : SelItem) : Prop := a.time ≤ b.time

instance : DecidableRel byTimeOrder := fun a b => Nat.decLe a.time b.time

instance : IsTotal SelItem byTimeOrder := ⟨fun a b => Nat.le_total a.time b.time⟩

instance : IsTrans SelItem byTimeOrder := ⟨fun _ _ _ h1 h2 => Nat.le_trans h1 h2⟩

/-- `output` from terminal.go, as the list of printed lines.  `fmtKey`
abstracts the rendering of the pressed accept key (the key-code constants
live in the external curses package); it is only consulted when `expect`
is non-empty.  `sort.Sort(byTimeOrder(sels))` is embedded as an insertion
sort by timestamp over the map's bindings. -/
def output (fmtKey : Nat → List Char) (t : TState) : List (List Char) :=
  (if t.printQuery then [t.input] else []) ++
  (if 0 < t.expect.length then [fmtKey t.pressed] else []) ++
  (if t.selected.length = 0 then
     if 0 < t.merger.length ∧ t.cy < (t.merger.length : Int) then
       [(t.merger.getD t.cy.toNat dummyItem).text]
     else []
   else
     (List.insertionSort byTimeOrder (t.selected.map (fun q => q.2))).map
       (fun q => q.text))

/-- Terminal request kinds. -/
def isTermReq : Req → Bool
  | .reqClose => true
  | .reqQuit => true
  | _ => false

/-- Session outcome of the requests posted by one dispatch: `reqClose`
closes the screen, prints `output` and exits 0; `reqQuit` exits 1 with no
output; otherwise the session continues (`none`).  (Models the mailbox
consumer for a dispatch that posts at most one terminal request, which is
the case for every modelled action.) -/
def sessionResult (fmtKey : Nat → List Char) (t : TState) (evs : List Req) :
    Option (Int × List (List Char)) :=
  match evs.find? isTermReq with
  | some .reqClose => some (0, output fmtKey t)
  | some .reqQuit => some (1, [])
  | _ => none

/-- Query `"日 a"` (a CJK rune, a space and a letter) with the cursor at
the end. -/
def cjkState : TState := { baseState with input := ['日', ' ', 'a'], cx := 3 }

/-- Query `"abc"` with the cursor at the end. -/
def abcState : TState := { baseState with input := ['a', 'b', 'c'], cx := 3 }

/-- C2: the invariant `0 ≤ cx ≤ len(input)` is the spec's (and the rest of
the code's) clear intent, but `actBackwardWord` assigns
`findLastMatch(...)+1` — a byte offset into the UTF-8 encoding of the
rune prefix — to the rune-index `cx`.  On the query `"日 a"` with `cx = 3`
the last boundary match starts at byte 3 (after the 3-byte CJK rune), so
`cx` becomes `4 > len(input) = 3`, breaking the invariant (and making the
next `input[:cx]` slice fault in Go). -/
theorem fzfC2_cx_invariant_bug :
    (0 ≤ cjkState.cx ∧ cjkState.cx ≤ (cjkState.input.length : Int)) ∧
    (applyAction 0 cjkState .actBackwardWord).1.cx = 4 ∧
    ¬ ((applyAction 0 cjkState .actBackwardWord).1.cx ≤
        ((applyAction 0 cjkState .actBackwardWord).1.input.length : Int)) := by
  decide

/-- C7: delete-char at position 0 of an empty query terminates the
session with exit status 1 and no output; accept terminates with status 0
(printing `output`); abort terminates with status 1 and no output;
delete-char on a non-empty query never terminates the session. -/
theorem fzfC7_exit_status (s : TState) (fmtKey : Nat → List Char) (now : Nat) :
    (s.input = [] → s.cx = 0 →
      sessionResult fmtKey (applyAction now s .actDeleteChar).1
        (applyAction now s .actDeleteChar).2 = some (1, [])) ∧
    (sessionResult fmtKey (applyAction now s .actAccept).1
        (applyAction now s .actAccept).2 =
      some (0, output fmtKey (applyAction now s .actAccept).1)) ∧
    (sessionResult fmtKey (applyAction now s .actAbort).1
        (applyAction now s .actAbort).2 = some (1, [])) ∧
    (s.input ≠ [] →
      sessionResult fmtKey (applyAction now s .actDeleteChar).1
        (applyAction now s .actDeleteChar).2 = none) := by
  refine ⟨?_, ?_, ?_, ?_⟩
  · intro h1 h2
    have hdc : delChar s = (s, false) := by
      rw [delChar, if_neg]
      simp [h1]
    simp [applyAction, hdc, h2, sessionResult, isTermReq, List.find?]
  · simp [applyAction, sessionResult, isTermReq, List.find?]
  · simp [applyAction, sessionResult, isTermReq, List.find?]
  · intro h
    have hlen : 0 < s.input.length := List.length_pos.mpr h
    have hcond : ¬ ((delChar s).2 = false ∧ s.cx = 0) := by
      rintro ⟨hdc, hcx⟩
      simp only [delChar] at hdc
      rw [if_pos (show 0 < s.input.length ∧ s.cx < (s.input.length : Int) from
        ⟨hlen, by omega⟩)] at hdc
      simp at hdc
    simp only [applyAction, if_neg hcond]
    rfl

/-- Witness for `fzfC7_exit_status`: the empty query terminates with
status 1 on delete-char, the query `"abc"` does not terminate. -/
theorem fzfC7_exit_status_witness :
    (baseState.input = [] ∧ baseState.cx = 0 ∧ abcState.input ≠ []) ∧
    sessionResult (fun _ => []) (applyAction 0 baseState .actDeleteChar).1
      (applyAction 0 baseState .actDeleteChar).2 = some (1, []) ∧
    sessionResult (fun _ => []) (applyAction 0 abcState .actDeleteChar).1
      (applyAction 0 abcState .actDeleteChar).2 = none :=
  ⟨⟨rfl, rfl, by decide⟩,
   (fzfC7_exit_status baseState (fun _ => []) 0).1 rfl rfl,
   (fzfC7_exit_status abcState (fun _ => []) 0).2.2.2 (by decide)⟩

/-- C8 counterexample to the claim as stated: on the query `"abc"` with
the cursor at 3, the backward-word boundary pattern finds no match, yet
backward-word is not a no-op — it moves the cursor to 0 — and
backward-kill-word deletes the whole query. -/
theorem fzfC8_counterexample :
    findLastMatch .wordBoundaryLeft (abcState.input.take abcState.cx.toNat) = -1 ∧
    (applyAction 0 abcState .actBackwardWord).1.cx = 0 ∧
    ¬ ((applyAction 0 abcState .actBackwardWord).1.cx = abcState.cx) ∧
    ¬ ((applyAction 0 abcState .actBackwardKillWord).1.input = abcState.input) := by
  decide

/-- C8, corrected: when the boundary pattern finds no match the action
never terminates the session (only `reqPrompt` is posted), and:
forward-word and kill-word are no-ops; backward-word moves the cursor to
position 0 leaving the query and yank buffer unchanged; the word-rubout
variants (cursor > 0) delete from the start of the query to the cursor,
storing the deleted span in the yank buffer and moving the cursor to 0. -/
theorem fzfC8_no_match (s : TState) (now : Nat) (fmtKey : Nat → List Char) :
    (findFirstMatch .wordEndOrLast (s.input.drop s.cx.toNat) = -1 →
      applyAction now s .actForwardWord = (s, [.reqPrompt]) ∧
      applyAction now s .actKillWord = (s, [.reqPrompt])) ∧
    (findLastMatch .wordBoundaryLeft (s.input.take s.cx.toNat) = -1 →
      applyAction now s .actBackwardWord = ({ s with cx := 0 }, [.reqPrompt]) ∧
      (0 < s.cx →
        applyAction now s .actBackwardKillWord =
          ({ s with cx := 0, yanked := s.input.take s.cx.toNat,
                    input := s.input.drop s.cx.toNat }, [.reqPrompt]))) ∧
    (findLastMatch .spaceNonspace (s.input.take s.cx.toNat) = -1 → 0 < s.cx →
      applyAction now s .actUnixWordRubout =
        ({ s with cx := 0, yanked := s.input.take s.cx.toNat,
                  input := s.input.drop s.cx.toNat }, [.reqPrompt])) ∧
    sessionResult fmtKey s [.reqPrompt] = none := by
  refine ⟨fun h => ⟨?_, ?_⟩, fun h => ⟨?_, fun hcx => ?_⟩, fun h hcx => ?_, rfl⟩
  · simp only [applyAction, h]
    have e : s.cx + -1 + 1 = s.cx := by ring
    rw [e]
  · simp only [applyAction, h]
    have e : s.cx + -1 + 1 = s.cx := by ring
    rw [e, if_neg (lt_irrefl s.cx)]
  · simp only [applyAction, h]
    norm_num
  · simp only [applyAction, if_pos hcx, rubout, h]
    norm_num
  · simp only [applyAction, if_pos hcx, rubout, h]
    norm_num

/-- Witness for `fzfC8_no_match` on the query `"abc"` with the cursor at
3 (no boundary match for any of the three patterns). -/
theorem fzfC8_no_match_witness :
    (findFirstMatch .wordEndOrLast (abcState.input.drop abcState.cx.toNat) = -1 ∧
     findLastMatch .wordBoundaryLeft (abcState.input.take abcState.cx.toNat) = -1 ∧
     findLastMatch .spaceNonspace (abcState.input.take abcState.cx.toNat) = -1 ∧
     0 < abcState.cx) ∧
    applyAction 0 abcState .actForwardWord = (abcState, [.reqPrompt]) ∧
    applyAction 0 abcState .actKillWord = (abcState, [.reqPrompt]) ∧
    applyAction 0 abcState .actBackwardKillWord =
      ({ abcState with cx := 0, yanked := abcState.input.take abcState.cx.toNat,
                       input := abcState.input.drop abcState.cx.toNat },
       [.reqPrompt]) ∧
    applyAction 0 abcState .actUnixWordRubout =
      ({ abcState with cx := 0, yanked := abcState.input.take abcState.cx.toNat,
                       input := abcState.input.drop abcState.cx.toNat },
       [.reqPrompt]) :=
  ⟨⟨by decide, by decide, by decide, by decide⟩,
   ((fzfC8_no_match abcState 0 (fun _ => [])).1 (by decide)).1,
   ((fzfC8_no_match abcState 0 (fun _ => [])).1 (by decide)).2,
   ((fzfC8_no_match abcState 0 (fun _ => [])).2.1 (by decide)).2 (by decide),
   (fzfC8_no_match abcState 0 (fun _ => [])).2.2.1 (by decide) (by decide)⟩

/-- C9: from query `"abc"` with the cursor at 3, backward-kill-word
yields the empty query with yank buffer `"abc"` and cursor 0; a
subsequent yank restores query `"abc"` with the cursor at 3. -/
theorem fzfC9_backward_kill_word_yank :
    (applyAction 0 abcState .actBackwardKillWord).1.input = [] ∧
    (applyAction 0 abcState .actBackwardKillWord).1.yanked = ['a', 'b', 'c'] ∧
    (applyAction 0 abcState .actBackwardKillWord).1.cx = 0 ∧
    (applyAction 0 (applyAction 0 abcState .actBackwardKillWord).1 .actYank).1.input =
      ['a', 'b', 'c'] ∧
    (applyAction 0 (applyAction 0 abcState .actBackwardKillWord).1 .actYank).1.cx = 3 := by
  decide

/-! Lemmas about the selection map and the output routine. -/

theorem find?_append_some {α} (p : α → Bool) :
    ∀ (l1 l2 : List α) (a : α), l1.find? p = some a → (l1 ++ l2).find? p = some a
  | [], _, _, h => by simp [List.find?] at h
  | x :: xs, l2, a, h => by
    by_cases hp : p x
    · rw [List.find?_cons_of_pos _ hp] at h
      rw [List.cons_append, List.find?_cons_of_pos _ hp]
      exact h
    · rw [List.find?_cons_of_neg _ hp] at h
      rw [List.cons_append, List.find?_cons_of_neg _ hp]
      exact find?_append_some p xs l2 a h

theorem find?_append_none {α} (p : α → Bool) :
    ∀ (l1 l2 : List α), l1.find? p = none → (l1 ++ l2).find? p = l2.find? p
  | [], _, _ => rfl
  | x :: xs, l2, h => by
    by_cases hp : p x
    · rw [List.find?_cons_of_pos _ hp] at h
      exact absurd h (by simp)
    · rw [List.find?_cons_of_neg _ hp] at h
      rw [List.cons_append, List.find?_cons_of_neg _ hp]
      exact find?_append_none p xs l2 h

/-- A key already bound keeps its binding through `selectItem` (insertion
happens only when the key is absent, and appending cannot shadow an
earlier binding). -/
theorem lookupSel_selectItem (sel : List (Nat × SelItem)) (it : Item)
    (now : Nat) (k : Nat) (v : SelItem) (h : lookupSel sel k = some v) :
    lookupSel (selectItem sel it now).1 k = some v := by
  simp only [selectItem]
  cases hl : lookupSel sel it.index
  · unfold lookupSel at h ⊢
    cases hf : sel.find? (fun q => q.1 == k) with
    | none => rw [hf] at h; exact absurd h (by simp)
    | some q => rw [hf] at h; rw [find?_append_some _ _ _ _ hf]; exact h
  · exact h

theorem lookupSel_selectItem_isSome (sel : List (Nat × SelItem)) (it : Item)
    (now : Nat) (k : Nat) (h : (lookupSel sel k).isSome) :
    (lookupSel (selectItem sel it now).1 k).isSome := by
  cases hl : lookupSel sel k with
  | none => rw [hl] at h; simp at h
  | some v => rw [lookupSel_selectItem sel it now k v hl]; rfl

theorem lookupSel_selectItem_self (sel : List (Nat × SelItem)) (it : Item)
    (now : Nat) : (lookupSel (selectItem sel it now).1 it.index).isSome := by
  simp only [selectItem]
  cases hl : lookupSel sel it.index
  · unfold lookupSel at hl ⊢
    cases hf : sel.find? (fun q => q.1 == it.index) with
    | none =>
      rw [find?_append_none _ _ _ hf]
      simp [List.find?]
    | some q => rw [hf] at hl; exact absurd hl (by simp)
  · rw [hl]; rfl

theorem lookupSel_selectAllLoop (k : Nat) (v : SelItem) :
    ∀ (m : List Item) (sel : List (Nat × SelItem)) (t : Nat),
      lookupSel sel k = some v → lookupSel (selectAllLoop m sel t) k = some v
  | [], _, _, h => h
  | it :: rest, sel, t, h =>
    lookupSel_selectAllLoop k v rest _ (t + 1) (lookupSel_selectItem sel it t k v h)

theorem lookupSel_selectAllLoop_isSome (k : Nat) (m : List Item)
    (sel : List (Nat × SelItem)) (t : Nat) (h : (lookupSel sel k).isSome) :
    (lookupSel (selectAllLoop m sel t) k).isSome := by
  cases hl : lookupSel sel k with
  | none => rw [hl] at h; simp at h
  | some v => rw [lookupSel_selectAllLoop k v m sel t hl]; rfl

/-- After a select-all pass every merger item's key is present. -/
theorem selectAllLoop_mem_isSome :
    ∀ (m : List Item) (sel : List (Nat × SelItem)) (t : Nat),
      ∀ it ∈ m, (lookupSel (selectAllLoop m sel t) it.index).isSome
  | [], _, _, it, h => absurd h (List.not_mem_nil it)
  | x :: rest, sel, t, it, h => by
    rcases List.mem_cons.mp h with rfl | hmem
    · exact lookupSel_selectAllLoop_isSome it.index rest _ (t + 1)
        (lookupSel_selectItem_self sel it t)
    · exact selectAllLoop_mem_isSome rest _ (t + 1) it hmem

/-- A select-all pass over items that are all already selected changes
nothing. -/
theorem selectAllLoop_fix :
    ∀ (m : List Item) (sel : List (Nat × SelItem)) (t : Nat),
      (∀ it ∈ m, (lookupSel sel it.index).isSome) → selectAllLoop m sel t = sel
  | [], _, _, _ => by simp [selectAllLoop]
  | x :: rest, sel, t, h => by
    have hx := h x (List.mem_cons_self x rest)
    have hsi : selectItem sel x t = (sel, false) := by
      simp only [selectItem]
      cases hl : lookupSel sel x.index
      · rw [hl] at hx; simp at hx
      · rfl
    rw [selectAllLoop, hsi]
    exact selectAllLoop_fix rest sel (t + 1)
      (fun it hit => h it (List.mem_cons_of_mem x hit))

/-- A select-all pass only appends new bindings after the existing ones. -/
theorem selectAllLoop_extends :
    ∀ (m : List Item) (sel : List (Nat × SelItem)) (t : Nat),
      ∃ suf, selectAllLoop m sel t = sel ++ suf
  | [], sel, _ => ⟨[], by simp [selectAllLoop]⟩
  | x :: rest, sel, t => by
    rw [selectAllLoop]
    cases hl : lookupSel sel x.index
    · have hsi : (selectItem sel x t).1 = sel ++ [(x.index, ⟨t, x.text⟩)] := by
        simp only [selectItem, hl]
      rw [hsi]
      obtain ⟨suf, hsuf⟩ :=
        selectAllLoop_extends rest (sel ++ [(x.index, ⟨t, x.text⟩)]) (t + 1)
      exact ⟨[(x.index, ⟨t, x.text⟩)] ++ suf, by rw [hsuf, List.append_assoc]⟩
    · have hsi : (selectItem sel x t).1 = sel := by simp only [selectItem, hl]
      rw [hsi]
      exact selectAllLoop_extends rest sel (t + 1)

/-- C10: selecting an already-present key (shared by select-all,
toggle-all's select branch and a selecting toggle through the `selectItem`
closure) leaves its stored timestamp and captured text unchanged;
consequently a second select-all pass is the identity on the selection
produced by the first, and a select-all pass never disturbs the existing
bindings (it only appends new ones), so the output order of previously
selected items is unaffected. -/
theorem fzfC10_select_idempotent (sel : List (Nat × SelItem)) (it : Item)
    (now : Nat) (merger : List Item) (t1 t2 : Nat) (k : Nat) (v : SelItem)
    (h : lookupSel sel k = some v) :
    lookupSel (selectItem sel it now).1 k = some v ∧
    selectAllLoop merger (selectAllLoop merger sel t1) t2 =
      selectAllLoop merger sel t1 ∧
    ∃ suf, selectAllLoop merger sel t1 = sel ++ suf :=
  ⟨lookupSel_selectItem sel it now k v h,
   selectAllLoop_fix merger _ t2
     (fun x hx => selectAllLoop_mem_isSome merger sel t1 x hx),
   selectAllLoop_extends merger sel t1⟩

/-- Witness for `fzfC10_select_idempotent`: key 1 is selected with
timestamp 5; selecting item 2 and running select-all twice keeps that
binding. -/
theorem fzfC10_select_idempotent_witness :
    lookupSel [(1, ⟨5, ['x']⟩)] 1 = some ⟨5, ['x']⟩ ∧
    (lookupSel (selectItem [(1, ⟨5, ['x']⟩)] ⟨2, ['y']⟩ 9).1 1 = some ⟨5, ['x']⟩ ∧
     selectAllLoop [⟨1, ['x']⟩, ⟨2, ['y']⟩]
         (selectAllLoop [⟨1, ['x']⟩, ⟨2, ['y']⟩] [(1, ⟨5, ['x']⟩)] 10) 20 =
       selectAllLoop [⟨1, ['x']⟩, ⟨2, ['y']⟩] [(1, ⟨5, ['x']⟩)] 10 ∧
     ∃ suf, selectAllLoop [⟨1, ['x']⟩, ⟨2, ['y']⟩] [(1, ⟨5, ['x']⟩)] 10 =
       [(1, ⟨5, ['x']⟩)] ++ suf) :=
  ⟨by decide,
   fzfC10_select_idempotent [(1, ⟨5, ['x']⟩)] ⟨2, ['y']⟩ 9
     [⟨1, ['x']⟩, ⟨2, ['y']⟩] 10 20 1 ⟨5, ['x']⟩ (by decide)⟩

/-- Two sorted lists with pairwise-distinct timestamps that are
permutations of each other are equal. -/
theorem sorted_perm_unique_time :
    ∀ (l1 l2 : List SelItem), l1.Perm l2 → l1.Sorted byTimeOrder →
      l2.Sorted byTimeOrder → l1.Pairwise (fun a b => a.time ≠ b.time) →
      l1 = l2
  | [], l2, hp, _, _, _ => hp.nil_eq
  | a :: t1, [], hp, _, _, _ =>
    absurd (List.Perm.nil_eq hp.symm).symm (List.cons_ne_nil a t1)
  | a :: t1, b :: t2, hp, hs1, hs2, hpw => by
    have hs1' := List.sorted_cons.mp hs1
    have hs2' := List.sorted_cons.mp hs2
    have hab : a = b := by
      by_contra hne
      have ha2 : a ∈ b :: t2 := hp.mem_iff.mp (List.mem_cons_self a t1)
      have hat2 : a ∈ t2 := by
        rcases List.mem_cons.mp ha2 with h | h
        · exact absurd h hne
        · exact h
      have hba : b ∈ a :: t1 := hp.symm.mem_iff.mp (List.mem_cons_self b t2)
      have hbt1 : b ∈ t1 := by
        rcases List.mem_cons.mp hba with h | h
        · exact absurd h.symm hne
        · exact h
      have h1 : byTimeOrder a b := hs1'.1 b hbt1
      have h2 : byTimeOrder b a := hs2'.1 a hat2
      have hne' := (List.pairwise_cons.mp hpw).1 b hbt1
      unfold byTimeOrder at h1 h2
      omega
    subst hab
    rw [sorted_perm_unique_time t1 t2 hp.cons_inv hs1'.2 hs2'.2
      (List.pairwise_cons.mp hpw).2]

/-- C6: with no accept-key set configured, the output prints the query
line first when `printQuery` is set; with no selection it prints the item
under the cursor (nothing when the list is empty); with selections it
prints every selected item's captured text, one per line, sorted by
selection timestamp ascending (a permutation of the selection's values),
and — for distinct timestamps — independently of the enumeration order of
the selection map. -/
theorem fzfC6_output (fmtKey : Nat → List Char) (t : TState)
    (hexp : t.expect = []) :
    (t.selected = [] → t.merger = [] →
      output fmtKey t = (if t.printQuery then [t.input] else [])) ∧
    (t.selected = [] → 0 ≤ t.cy → t.cy < (t.merger.length : Int) →
      output fmtKey t = (if t.printQuery then [t.input] else []) ++
        [(t.merger.getD t.cy.toNat dummyItem).text]) ∧
    (t.selected ≠ [] →
      output fmtKey t = (if t.printQuery then [t.input] else []) ++
        (List.insertionSort byTimeOrder (t.selected.map (fun q => q.2))).map
          (fun q => q.text) ∧
      (List.insertionSort byTimeOrder (t.selected.map (fun q => q.2))).Sorted
        byTimeOrder ∧
      (List.insertionSort byTimeOrder (t.selected.map (fun q => q.2))).Perm
        (t.selected.map (fun q => q.2))) ∧
    (∀ l', l'.Perm (t.selected.map (fun q => q.2)) →
      (t.selected.map (fun q => q.2)).Pairwise (fun a b => a.time ≠ b.time) →
      List.insertionSort byTimeOrder l' =
        List.insertionSort byTimeOrder (t.selected.map (fun q => q.2))) := by
  refine ⟨?_, ?_, ?_, ?_⟩
  · intro h1 h2
    simp [output, hexp, h1, h2]
  · intro h1 hcy1 hcy2
    have hlen : 0 < t.merger.length := by omega
    simp only [output, hexp, h1]
    rw [if_pos (show 0 < t.merger.length ∧ t.cy < (t.merger.length : Int) from
      ⟨hlen, hcy2⟩)]
    simp
  · intro h
    have hlen : ¬ (t.selected.length = 0) := by
      simpa [List.length_eq_zero] using h
    refine ⟨?_, List.sorted_insertionSort _ _, List.perm_insertionSort _ _⟩
    simp [output, hexp, hlen]
  · intro l' hperm hpw
    have hpw' := ((((List.perm_insertionSort byTimeOrder l').trans
      hperm).pairwise_iff (fun hab => Ne.symm hab)).mpr hpw)
    exact sorted_perm_unique_time _ _
      ((List.perm_insertionSort byTimeOrder l').trans
        (hperm.trans (List.perm_insertionSort byTimeOrder _).symm))
      (List.sorted_insertionSort _ _) (List.sorted_insertionSort _ _) hpw'

/-- A state with `printQuery` set and two selections made at timestamps 7
and 3, stored in an enumeration order opposite to timestamp order. -/
def outputState : TState :=
  { baseState with
    printQuery := true
    input := ['q']
    selected := [(2, ⟨7, ['b']⟩), (1, ⟨3, ['a']⟩)] }

/-- Witness for `fzfC6_output` at `outputState`. -/
theorem fzfC6_output_witness :
    (outputState.expect = [] ∧ outputState.selected ≠ []) ∧
    (output (fun _ => []) outputState =
        (if outputState.printQuery then [outputState.input] else []) ++
        (List.insertionSort byTimeOrder
          (outputState.selected.map (fun q => q.2))).map (fun q => q.text) ∧
      (List.insertionSort byTimeOrder
        (outputState.selected.map (fun q => q.2))).Sorted byTimeOrder ∧
      (List.insertionSort byTimeOrder
        (outputState.selected.map (fun q => q.2))).Perm
          (outputState.selected.map (fun q => q.2))) :=
  ⟨⟨rfl, by decide⟩, (fzfC6_output (fun _ => []) outputState rfl).2.2.1 (by decide)⟩

end Fzf
